import Mathlib

/-!
Verification of the Learning-Go teaching repository.

Shallow embedding of the Go examples the specification talks about:

* `7. testing/calculator.go` : `Divide` and `Fibonacci` over Go `int`,
  modelled as 64-bit two's-complement integers (unbounded `Int` together
  with an explicit wrap into `[-2^63, 2^63 - 1]` wherever an arithmetic
  result can leave that range).
* `7. custom-types-methods/main.go` : `BankAccount`, whose `float64`
  balance is modelled as IEEE-754 binary64 (`F64`: round-to-nearest
  ties-to-even, infinities, NaN), and the chaining `Calculator`, whose
  claim concerns only the zero guard and totality, so its field is
  carried as an exact rational.
* `6. maps/main.go` : the four REST user handlers, modelled as pure
  functions from the request data and the in-memory state
  (`users` slice, `nextID`) to the new state and the emitted HTTP reply.
* the goroutines/channels example (`worker` / `workerPoolExample`) :
  a small-step interleaving semantics of the 3-worker / 5-job pool.
-/

namespace LearningGo

/-! ### Go machine integers (64-bit two's complement)

`intMin64 = -2^63`, `intMax64 = 2^63 - 1`, written as numerals so that
`decide` and `omega` can work with them directly. -/

def intMin64 : Int := -9223372036854775808

def intMax64 : Int := 9223372036854775807

/-- Reduce an unbounded integer to the 64-bit two's-complement value with
the same residue mod `2^64`; this is what a Go `int` arithmetic operation
produces when its mathematical result leaves the `int` range. -/
def wrap64 (x : Int) : Int :=
  (x + 9223372036854775808) % 18446744073709551616 - 9223372036854775808

lemma wrap64_eq_self {x : Int} (h1 : intMin64 ≤ x) (h2 : x ≤ intMax64) :
    wrap64 x = x := by
  unfold intMin64 at h1
  unfold intMax64 at h2
  unfold wrap64
  rw [Int.emod_eq_of_lt (by omega) (by omega)]
  omega

/-! ### `7. testing/calculator.go` -/

namespace calculator

/-- Go source:
`func Divide(a, b int) int { if b == 0 { return 0 }; return a / b }`.
Go `/` on `int` truncates toward zero; on the single overflowing pair
(`intMin64 / -1`) the quotient wraps back to `intMin64`
(Go spec, "Integer operators"). -/
def Divide (a b : Int) : Int :=
  if b = 0 then 0 else wrap64 (Int.tdiv a b)

/-- Go source:
`func Fibonacci(n int) int { if n <= 1 { return n }; return Fibonacci(n-1) + Fibonacci(n-2) }`,
restricted to the non-negative arguments the claim is about.  The `+` is
Go `int` addition and therefore wraps. -/
def Fibonacci : Nat → Int
  | 0 => 0
  | 1 => 1
  | n + 2 => wrap64 (Fibonacci (n + 1) + Fibonacci n)

lemma Fibonacci_add_two (n : Nat) :
    Fibonacci (n + 2) = wrap64 (Fibonacci (n + 1) + Fibonacci n) := rfl

/-- The truncated quotient of two in-range 64-bit integers is itself in
range, except for `intMin64.tdiv (-1) = 2^63`. -/
lemma tdiv_inRange {a b : Int} (ha1 : intMin64 ≤ a) (ha2 : a ≤ intMax64)
    (hb : b ≠ 0) (hx : ¬(a = intMin64 ∧ b = -1)) :
    intMin64 ≤ Int.tdiv a b ∧ Int.tdiv a b ≤ intMax64 := by
  unfold intMin64 intMax64 at *
  have habs : a.natAbs ≤ 9223372036854775808 := by omega
  rcases Nat.lt_or_ge b.natAbs 2 with hb2 | hb2
  · have hb0 : b.natAbs ≠ 0 := by
      intro h0
      exact hb (Int.natAbs_eq_zero.mp h0)
    have hb1 : b = 1 ∨ b = -1 := by omega
    rcases hb1 with h1 | h1
    · subst h1
      rw [Int.tdiv_one]
      exact ⟨ha1, ha2⟩
    · subst h1
      have hnot : a ≠ -9223372036854775808 := by
        intro he
        exact hx ⟨he, rfl⟩
      have heq : Int.tdiv a (-1) = -a := by
        have := Int.tdiv_neg a 1
        rw [Int.tdiv_one] at this
        exact this
      rw [heq]
      omega
  · have hle : (Int.tdiv a b).natAbs ≤ a.natAbs / 2 := by
      rw [Int.natAbs_tdiv]
      exact Nat.div_le_div_left hb2 (by omega)
    omega

/-- Claim C2, counterexample: at `a = intMin64`, `b = -1` the Go quotient
wraps, so `Divide` does not return the quotient truncated toward zero. -/
theorem C2_counterexample :
    Divide intMin64 (-1) = intMin64 ∧
    Divide intMin64 (-1) ≠ Int.tdiv intMin64 (-1) := by
  decide

/-- Claim C2 (amended): for every pair of 64-bit integers `a`, `b`,
`Divide a b` is `0` when `b = 0` (no fault is signalled: `Divide` is a
total function), and is the quotient of `a` by `b` truncated toward zero
whenever `b ≠ 0` — except for the single overflowing pair
`(intMin64, -1)`, where the result wraps back to `intMin64`. -/
theorem C2_divide (a b : Int) (ha1 : intMin64 ≤ a) (ha2 : a ≤ intMax64) :
    (b = 0 → Divide a b = 0) ∧
    (b ≠ 0 → ¬(a = intMin64 ∧ b = -1) → Divide a b = Int.tdiv a b) := by
  constructor
  · intro h
    simp [Divide, h]
  · intro h hx
    have hr := tdiv_inRange ha1 ha2 h hx
    simp [Divide, h, wrap64_eq_self hr.1 hr.2]

/-- Claim C2, witness at `a = 10`, `b = 3` and `b = 0`. -/
theorem C2_divide_witness :
    (intMin64 ≤ 10 ∧ (10 : Int) ≤ intMax64) ∧
    Divide 10 0 = 0 ∧ Divide 10 3 = Int.tdiv 10 3 := by
  refine ⟨⟨by decide, by decide⟩, ?_, ?_⟩
  · exact (C2_divide 10 0 (by decide) (by decide)).1 rfl
  · exact (C2_divide 10 3 (by decide) (by decide)).2 (by decide) (by decide)

/-- Up to `n = 92` no addition in the recursion overflows, so the Go
function agrees with the mathematical Fibonacci sequence. -/
lemma fibonacci_eq_fib (n : Nat) (h : n ≤ 92) :
    Fibonacci n = (Nat.fib n : Int) := by
  induction n using Nat.strong_induction_on with
  | _ n ih =>
    match n, h with
    | 0, _ => simp [Fibonacci]
    | 1, _ => simp [Fibonacci]
    | n + 2, h =>
      have h1 := ih (n + 1) (by omega) (by omega)
      have h2 := ih n (by omega) (by omega)
      rw [Fibonacci_add_two, h1, h2]
      have hsum : (Nat.fib (n + 1) : Int) + (Nat.fib n : Int) =
          ((Nat.fib (n + 2) : Nat) : Int) := by
        rw [Nat.fib_add_two]
        push_cast
        ring
      rw [hsum]
      have hle : Nat.fib (n + 2) ≤ Nat.fib 92 := Nat.fib_mono h
      have h92 : Nat.fib 92 ≤ 9223372036854775807 := by decide
      refine wrap64_eq_self ?_ ?_
      · unfold intMin64
        omega
      · unfold intMax64
        omega

/-- Claim C7, counterexample: at `n = 93` the 64-bit addition inside the
recursion overflows, and `Fibonacci 93` is not the 93rd Fibonacci
number (the returned value is negative). -/
theorem C7_counterexample : Fibonacci 93 ≠ (Nat.fib 93 : Int) := by
  have h92 := fibonacci_eq_fib 92 (by omega)
  have h91 := fibonacci_eq_fib 91 (by omega)
  have h93 : Fibonacci 93 = wrap64 (Fibonacci 92 + Fibonacci 91) :=
    Fibonacci_add_two 91
  rw [h93, h92, h91]
  have e91 : Nat.fib 91 = 4660046610375530309 := by decide
  have e92 : Nat.fib 92 = 7540113804746346429 := by decide
  have e93 : Nat.fib 93 = 12200160415121876738 := by decide
  rw [e91, e92, e93]
  decide

/-- Claim C7 (amended): for every `0 ≤ n ≤ 92`, `Fibonacci n` returns the
nth Fibonacci number (and the recursion terminates for every
non-negative `n`: `Fibonacci` is a total function); from `n = 93` on the
64-bit addition overflows. -/
theorem C7_fibonacci (n : Nat) (h : n ≤ 92) :
    Fibonacci n = (Nat.fib n : Int) :=
  fibonacci_eq_fib n h

/-- Claim C7, witness at `n = 10`. -/
theorem C7_fibonacci_witness :
    10 ≤ 92 ∧ Fibonacci 10 = (Nat.fib 10 : Int) :=
  ⟨by decide, C7_fibonacci 10 (by decide)⟩

end calculator

/-! ### IEEE-754 binary64 (`float64`)

`BankAccount` stores a Go `float64`, so its arithmetic must round.  An
`F64` is a finite value (carried as the exact rational it denotes), an
infinity, or NaN.  Addition of finite values rounds the exact sum to
nearest, ties to even, over the binary64 grid (53-bit significand,
minimum exponent -1074, overflow to the infinity at `2^1024`); the
special values follow the IEEE special-case tables (`Inf - Inf = NaN`,
comparisons involving NaN are false).  The single zero stands for both
IEEE zeros, which compare equal. -/

inductive F64
  | finite (val : ℚ)
  | inf
  | neginf
  | nan
deriving DecidableEq

/-- IEEE `<` : false whenever an operand is NaN. -/
def F64.lt : F64 → F64 → Bool
  | .finite a, .finite b => decide (a < b)
  | .finite _, .inf => true
  | .neginf, .finite _ => true
  | .neginf, .inf => true
  | _, _ => false

/-- IEEE `<=` : false whenever an operand is NaN. -/
def F64.le : F64 → F64 → Bool
  | .finite a, .finite b => decide (a ≤ b)
  | .finite _, .inf => true
  | .neginf, .finite _ => true
  | .neginf, .inf => true
  | .neginf, .neginf => true
  | .inf, .inf => true
  | _, _ => false

/-- `x` is a negative value (false for NaN, by the IEEE comparison). -/
def F64.isNeg (x : F64) : Bool := F64.lt x (F64.finite 0)

/-- Fuelled binary logarithm: `natLog2 n` is the position of the
leading bit of `n` (0 for `n ≤ 1`); the fuel `n` always suffices. -/
def natLog2Aux : Nat → Nat → Nat
  | 0, _ => 0
  | fuel + 1, n => if n ≤ 1 then 0 else natLog2Aux fuel (n / 2) + 1

def natLog2 (n : Nat) : Nat := natLog2Aux n n

/-- `2^k` as a rational, for an integer exponent. -/
def qpow2 : Int → ℚ
  | .ofNat n => ((2 ^ n : Nat) : ℚ)
  | .negSucc n => 1 / ((2 ^ (n + 1) : Nat) : ℚ)

/-- Round a rational to the nearest integer, ties to even. -/
def rne (q : ℚ) : Int :=
  if q - ⌊q⌋ < 1 / 2 then ⌊q⌋
  else if 1 / 2 < q - ⌊q⌋ then ⌊q⌋ + 1
  else if ⌊q⌋ % 2 = 0 then ⌊q⌋ else ⌊q⌋ + 1

/-- Largest `e` with `2^e ≤ |q|` (for `q ≠ 0`): the bit lengths of
numerator and denominator pin the exponent to two candidates, and one
comparison picks the right one. -/
def ratLog2 (q : ℚ) : Int :=
  if qpow2 (Int.ofNat (natLog2 q.num.natAbs) - Int.ofNat (natLog2 q.den)) ≤ |q| then
    Int.ofNat (natLog2 q.num.natAbs) - Int.ofNat (natLog2 q.den)
  else
    Int.ofNat (natLog2 q.num.natAbs) - Int.ofNat (natLog2 q.den) - 1

/-- The binary64 quantum (ulp exponent) at magnitude `q`: 52 bits below
the leading bit, floored at the subnormal quantum `2^(-1074)`. -/
def f64k (q : ℚ) : Int := max (ratLog2 q - 52) (-1074)

/-- The exact rational nearest to `q` on the binary64 grid (before the
overflow check). -/
def f64round (q : ℚ) : ℚ := (rne (q / qpow2 (f64k q)) : ℚ) * qpow2 (f64k q)

/-- Round an exact rational result to a binary64 value: to nearest, ties
to even, overflowing to an infinity at magnitude `2^1024`. -/
def roundF64 (q : ℚ) : F64 :=
  if q = 0 then .finite 0
  else if qpow2 1024 ≤ f64round q then .inf
  else if f64round q ≤ -qpow2 1024 then .neginf
  else .finite (f64round q)

def F64.neg : F64 → F64
  | .finite a => .finite (-a)
  | .inf => .neginf
  | .neginf => .inf
  | .nan => .nan

/-- IEEE binary64 addition. -/
def F64.add : F64 → F64 → F64
  | .nan, _ => .nan
  | _, .nan => .nan
  | .inf, .neginf => .nan
  | .neginf, .inf => .nan
  | .inf, _ => .inf
  | _, .inf => .inf
  | .neginf, _ => .neginf
  | _, .neginf => .neginf
  | .finite a, .finite b => roundF64 (a + b)

/-- IEEE binary64 subtraction, `x - y = x + (-y)`. -/
def F64.sub (x y : F64) : F64 := x.add y.neg

/-! ### `7. custom-types-methods/main.go` : `BankAccount`

The Go fields are `float64`, modelled by `F64` above; the guards are the
IEEE comparisons the Go code performs. -/

structure BankAccount where
  owner : String
  balance : F64

/-- Go source: `NewBankAccount` builds the struct from its arguments. -/
def NewBankAccount (owner : String) (initialBalance : F64) : BankAccount :=
  { owner := owner, balance := initialBalance }

/-- Go source: `deposit` performs `balance += amount` only when
`amount > 0` (otherwise the method does nothing). -/
def BankAccount.deposit (ba : BankAccount) (amount : F64) : BankAccount :=
  if F64.lt (F64.finite 0) amount then
    { ba with balance := ba.balance.add amount }
  else ba

/-- Go source: `withdraw` performs `balance -= amount` and reports
`true` exactly when `amount > 0 && amount <= ba.balance`; otherwise it
reports `false` and leaves the balance alone. -/
def BankAccount.withdraw (ba : BankAccount) (amount : F64) : Bool × BankAccount :=
  if F64.lt (F64.finite 0) amount && F64.le amount ba.balance then
    (true, { ba with balance := ba.balance.sub amount })
  else
    (false, ba)

/-- A call of one of the two mutating `BankAccount` methods. -/
inductive AccountOp
  | deposit (amount : F64)
  | withdraw (amount : F64)

def applyAccountOp (ba : BankAccount) : AccountOp → BankAccount
  | .deposit a => ba.deposit a
  | .withdraw a => (ba.withdraw a).2

def applyAccountOps (ba : BankAccount) (ops : List AccountOp) : BankAccount :=
  ops.foldl applyAccountOp ba

lemma qpow2_pos (k : Int) : 0 < qpow2 k := by
  cases k with
  | ofNat n =>
      simp only [qpow2]
      exact_mod_cast pow_pos (by norm_num : (0 : Nat) < 2) n
  | negSucc n =>
      simp only [qpow2]
      refine div_pos one_pos ?_
      exact_mod_cast pow_pos (by norm_num : (0 : Nat) < 2) (n + 1)

lemma rne_nonneg {q : ℚ} (h : 0 ≤ q) : 0 ≤ rne q := by
  have hf : 0 ≤ ⌊q⌋ := Int.floor_nonneg.mpr h
  unfold rne
  split_ifs <;> omega

lemma f64round_nonneg {q : ℚ} (h : 0 ≤ q) : 0 ≤ f64round q := by
  unfold f64round
  have hp : (0 : ℚ) < qpow2 (f64k q) := qpow2_pos _
  have hn : 0 ≤ rne (q / qpow2 (f64k q)) :=
    rne_nonneg (div_nonneg h hp.le)
  exact mul_nonneg (by exact_mod_cast hn) hp.le

/-- Rounding a non-negative exact result never yields a negative value
(it yields a non-negative finite value or `+Inf`). -/
lemma roundF64_notNeg {q : ℚ} (h : 0 ≤ q) : (roundF64 q).isNeg = false := by
  unfold roundF64
  split_ifs with h0 hov hneg
  · decide
  · rfl
  · exfalso
    have hr := f64round_nonneg h
    have hbig : (0 : ℚ) < qpow2 1024 := qpow2_pos _
    linarith
  · simp only [F64.isNeg, F64.lt, decide_eq_false_iff_not]
    exact not_lt.mpr (f64round_nonneg h)

/-- A non-negative (or NaN, or `+Inf`) balance plus an IEEE-positive
amount is never negative. -/
lemma add_notNeg {x y : F64} (hx : x.isNeg = false)
    (hy : F64.lt (F64.finite 0) y = true) : (x.add y).isNeg = false := by
  cases y with
  | nan => simp [F64.lt] at hy
  | neginf => simp [F64.lt] at hy
  | inf =>
      cases x with
      | nan => rfl
      | inf => rfl
      | neginf => simp [F64.isNeg, F64.lt] at hx
      | finite a => rfl
  | finite b =>
      have hb : 0 < b := by simpa [F64.lt] using hy
      cases x with
      | nan => rfl
      | inf => rfl
      | neginf => simp [F64.isNeg, F64.lt] at hx
      | finite a =>
          have ha : ¬a < 0 := by simpa [F64.isNeg, F64.lt] using hx
          show (roundF64 (a + b)).isNeg = false
          exact roundF64_notNeg (by linarith)

/-- Subtracting an IEEE-positive amount bounded by the balance is never
negative (the `Inf - Inf` case gives NaN, which is not negative). -/
lemma sub_notNeg {x y : F64} (hy : F64.lt (F64.finite 0) y = true)
    (hle : F64.le y x = true) : (x.sub y).isNeg = false := by
  cases y with
  | nan => simp [F64.lt] at hy
  | neginf => simp [F64.lt] at hy
  | inf =>
      cases x with
      | inf => rfl
      | nan => simp [F64.le] at hle
      | neginf => simp [F64.le] at hle
      | finite a => simp [F64.le] at hle
  | finite p =>
      have hp : 0 < p := by simpa [F64.lt] using hy
      cases x with
      | nan => simp [F64.le] at hle
      | neginf => simp [F64.le] at hle
      | inf => rfl
      | finite q =>
          have hpq : p ≤ q := by simpa [F64.le] using hle
          show (roundF64 (q + -p)).isNeg = false
          exact roundF64_notNeg (by linarith)

lemma applyAccountOp_notNeg (op : AccountOp) (ba : BankAccount)
    (h : ba.balance.isNeg = false) :
    (applyAccountOp ba op).balance.isNeg = false := by
  cases op with
  | deposit a =>
      simp only [applyAccountOp]
      unfold BankAccount.deposit
      split_ifs with h1
      · simpa using add_notNeg h h1
      · simpa using h
  | withdraw a =>
      simp only [applyAccountOp]
      unfold BankAccount.withdraw
      split_ifs with h1
      · rw [Bool.and_eq_true] at h1
        simpa using sub_notNeg h1.1 h1.2
      · simpa using h

lemma applyAccountOps_notNeg (ops : List AccountOp) (ba : BankAccount)
    (h : ba.balance.isNeg = false) :
    (applyAccountOps ba ops).balance.isNeg = false := by
  induction ops generalizing ba with
  | nil => simpa [applyAccountOps] using h
  | cons op rest ih =>
      simpa [applyAccountOps] using
        ih (applyAccountOp ba op) (applyAccountOp_notNeg op ba h)

/-! Evaluation helpers for `roundF64` at concrete points. -/

lemma floor_eval {q : ℚ} {n : Int} (h1 : (n : ℚ) ≤ q) (h2 : q < (n : ℚ) + 1) :
    ⌊q⌋ = n :=
  Int.floor_eq_iff.mpr ⟨h1, h2⟩

lemma rne_eval_lo {q : ℚ} {f : Int} (hf : ⌊q⌋ = f)
    (hr : q - (f : ℚ) < 1 / 2) : rne q = f := by
  unfold rne
  rw [hf, if_pos hr]

lemma rne_eval_tie_even {q : ℚ} {f : Int} (hf : ⌊q⌋ = f)
    (hr : q - (f : ℚ) = 1 / 2) (hpar : f % 2 = 0) : rne q = f := by
  unfold rne
  rw [hf, hr, if_neg (lt_irrefl _), if_neg (lt_irrefl _), if_pos hpar]

lemma rne_eval_tie_odd {q : ℚ} {f : Int} (hf : ⌊q⌋ = f)
    (hr : q - (f : ℚ) = 1 / 2) (hpar : ¬f % 2 = 0) : rne q = f + 1 := by
  unfold rne
  rw [hf, hr, if_neg (lt_irrefl _), if_neg (lt_irrefl _), if_neg hpar]

lemma ratLog2_eval_pos {q : ℚ} {e0 : Int}
    (he : Int.ofNat (natLog2 q.num.natAbs) - Int.ofNat (natLog2 q.den) = e0)
    (h : qpow2 e0 ≤ |q|) : ratLog2 q = e0 := by
  unfold ratLog2
  rw [he, if_pos h]

lemma roundF64_finite_eval {q v : ℚ} {e k m : Int}
    (hq : q ≠ 0) (he : ratLog2 q = e) (hk : max (e - 52) (-1074 : Int) = k)
    (hm : rne (q / qpow2 k) = m) (hv : (m : ℚ) * qpow2 k = v)
    (h1 : v < qpow2 1024) (h2 : -qpow2 1024 < v) :
    roundF64 q = F64.finite v := by
  have hfk : f64k q = k := by
    unfold f64k
    rw [he, hk]
  have hf : f64round q = v := by
    unfold f64round
    rw [hfk, hm, hv]
  unfold roundF64
  rw [if_neg hq, hf, if_neg (not_le.mpr h1), if_neg (not_le.mpr h2)]

/-- `fl(1e16 + 1) = 1e16`: the increment is absorbed (ulp is 2 there,
and the tie goes to the even significand). -/
lemma round_absorb_up :
    roundF64 ((10000000000000000 : ℚ) + 1) = F64.finite 10000000000000000 := by
  rw [show (10000000000000000 : ℚ) + 1 = 10000000000000001 by norm_num]
  have hdiv : (10000000000000001 : ℚ) / qpow2 1 = 10000000000000001 / 2 := by
    rw [show qpow2 1 = ((2 ^ 1 : Nat) : ℚ) from rfl]
    norm_num
  refine @roundF64_finite_eval _ _ 53 1 5000000000000000 (by norm_num)
    (ratLog2_eval_pos (by decide) ?_) (by decide) ?_ ?_ ?_ ?_
  · rw [show qpow2 53 = ((2 ^ 53 : Nat) : ℚ) from rfl,
      abs_of_pos (by norm_num)]
    push_cast
    norm_num
  · rw [hdiv]
    exact rne_eval_tie_even (floor_eval (by norm_num) (by norm_num))
      (by push_cast; norm_num) (by decide)
  · rw [show qpow2 1 = ((2 ^ 1 : Nat) : ℚ) from rfl]
    push_cast
    norm_num
  · rw [show qpow2 1024 = ((2 ^ 1024 : Nat) : ℚ) from rfl]
    push_cast
    norm_num
  · rw [show qpow2 1024 = ((2 ^ 1024 : Nat) : ℚ) from rfl]
    push_cast
    norm_num

/-- `fl(1e16 - 1) = 1e16`: the decrement is also absorbed (the tie goes
up to the even significand). -/
lemma round_absorb_down :
    roundF64 ((10000000000000000 : ℚ) + -1) = F64.finite 10000000000000000 := by
  rw [show (10000000000000000 : ℚ) + -1 = 9999999999999999 by norm_num]
  have hdiv : (9999999999999999 : ℚ) / qpow2 1 = 9999999999999999 / 2 := by
    rw [show qpow2 1 = ((2 ^ 1 : Nat) : ℚ) from rfl]
    norm_num
  refine @roundF64_finite_eval _ _ 53 1 5000000000000000 (by norm_num)
    (ratLog2_eval_pos (by decide) ?_) (by decide) ?_ ?_ ?_ ?_
  · rw [show qpow2 53 = ((2 ^ 53 : Nat) : ℚ) from rfl,
      abs_of_pos (by norm_num)]
    push_cast
    norm_num
  · rw [hdiv]
    rw [show (5000000000000000 : Int) = 4999999999999999 + 1 by norm_num]
    exact rne_eval_tie_odd (floor_eval (by norm_num) (by norm_num))
      (by push_cast; norm_num) (by decide)
  · rw [show qpow2 1 = ((2 ^ 1 : Nat) : ℚ) from rfl]
    push_cast
    norm_num
  · rw [show qpow2 1024 = ((2 ^ 1024 : Nat) : ℚ) from rfl]
    push_cast
    norm_num
  · rw [show qpow2 1024 = ((2 ^ 1024 : Nat) : ℚ) from rfl]
    push_cast
    norm_num

/-- `fl(100 + 50) = 150`: small integral sums are exact. -/
lemma round_100_add_50 :
    roundF64 ((100 : ℚ) + 50) = F64.finite 150 := by
  rw [show (100 : ℚ) + 50 = 150 by norm_num]
  have hdiv : (150 : ℚ) / qpow2 (-45) = 5277655813324800 := by
    rw [show qpow2 (-45) = 1 / ((2 ^ 45 : Nat) : ℚ) from rfl]
    push_cast
    norm_num
  refine @roundF64_finite_eval _ _ 7 (-45) 5277655813324800 (by norm_num)
    (ratLog2_eval_pos (by decide) ?_) (by decide) ?_ ?_ ?_ ?_
  · rw [show qpow2 7 = ((2 ^ 7 : Nat) : ℚ) from rfl,
      abs_of_pos (by norm_num)]
    push_cast
    norm_num
  · rw [hdiv]
    exact rne_eval_lo (floor_eval (by norm_num) (by norm_num))
      (by push_cast; norm_num)
  · rw [show qpow2 (-45) = 1 / ((2 ^ 45 : Nat) : ℚ) from rfl]
    push_cast
    norm_num
  · rw [show qpow2 1024 = ((2 ^ 1024 : Nat) : ℚ) from rfl]
    push_cast
    norm_num
  · rw [show qpow2 1024 = ((2 ^ 1024 : Nat) : ℚ) from rfl]
    push_cast
    norm_num

/-- Claim C9, counterexample (IEEE-754 rounding): with balance `1e16`, a
deposit of the positive amount `1` is absorbed by rounding and the
balance does not increase at all; a withdrawal of `1` returns `true`
yet leaves the balance unchanged; and `deposit(+Inf)` followed by
`withdraw(+Inf)` passes both guards and leaves a NaN balance, which is
not non-negative. -/
theorem C9_counterexample :
    F64.lt (F64.finite 0) (F64.finite 1) = true ∧
    ((NewBankAccount "A" (F64.finite 10000000000000000)).deposit
        (F64.finite 1)).balance = F64.finite 10000000000000000 ∧
    ((NewBankAccount "A" (F64.finite 10000000000000000)).withdraw
        (F64.finite 1)).1 = true ∧
    ((NewBankAccount "A" (F64.finite 10000000000000000)).withdraw
        (F64.finite 1)).2.balance = F64.finite 10000000000000000 ∧
    (((NewBankAccount "A" (F64.finite 0)).deposit F64.inf).withdraw
        F64.inf).2.balance = F64.nan := by
  refine ⟨by decide, ?_, ?_, ?_, by decide⟩
  · unfold NewBankAccount BankAccount.deposit
    rw [if_pos (by decide)]
    exact round_absorb_up
  · unfold NewBankAccount BankAccount.withdraw
    rw [if_pos (by decide)]
  · unfold NewBankAccount BankAccount.withdraw
    rw [if_pos (by decide)]
    exact round_absorb_down

/-- Claim C9 (amended): `deposit` is a no-op unless `amount > 0` (IEEE
comparison, so also for a NaN amount), and otherwise sets the balance to
the IEEE-754 sum — which rounds, so small amounts can be absorbed;
`withdraw` returns `true` iff `0 < amount ≤ balance` (IEEE comparisons),
is a reported no-op on `false`, and on `true` sets the balance to the
IEEE-754 difference; and an account created with a balance that is not
negative never acquires a negative balance under any sequence of calls
(the balance can become `+Inf`, or NaN via `Inf - Inf` — neither of
which is negative). -/
theorem C9_bankAccount :
    (∀ (ba : BankAccount) (a : F64),
      (F64.lt (F64.finite 0) a = true →
        (ba.deposit a).balance = ba.balance.add a) ∧
      (F64.lt (F64.finite 0) a = false → ba.deposit a = ba)) ∧
    (∀ (ba : BankAccount) (a : F64),
      ((ba.withdraw a).1 = true ↔
        F64.lt (F64.finite 0) a = true ∧ F64.le a ba.balance = true) ∧
      ((ba.withdraw a).1 = true →
        (ba.withdraw a).2.balance = ba.balance.sub a) ∧
      ((ba.withdraw a).1 = false → (ba.withdraw a).2 = ba)) ∧
    (∀ (owner : String) (init : F64) (ops : List AccountOp),
      init.isNeg = false →
      (applyAccountOps (NewBankAccount owner init) ops).balance.isNeg = false) := by
  refine ⟨?_, ?_, ?_⟩
  · intro ba a
    constructor
    · intro h
      simp [BankAccount.deposit, h]
    · intro h
      simp [BankAccount.deposit, h]
  · intro ba a
    refine ⟨?_, ?_, ?_⟩
    · unfold BankAccount.withdraw
      split_ifs with h1
      · rw [Bool.and_eq_true] at h1
        simp [h1.1, h1.2]
      · rw [Bool.and_eq_true] at h1
        simpa using h1
    · unfold BankAccount.withdraw
      split_ifs with h1
      · intro _
        rfl
      · intro hc
        simp at hc
    · unfold BankAccount.withdraw
      split_ifs with h1
      · simp
      · simp
  · intro owner init ops h
    exact applyAccountOps_notNeg ops (NewBankAccount owner init)
      (by simpa [NewBankAccount] using h)

/-- Claim C9, witness: a concrete account and operation sequence, with
the IEEE sum evaluated. -/
theorem C9_bankAccount_witness :
    ((NewBankAccount "Alice" (F64.finite 100)).deposit (F64.finite 50)).balance
      = (F64.finite 100).add (F64.finite 50) ∧
    (F64.finite 100).add (F64.finite 50) = F64.finite 150 ∧
    (applyAccountOps (NewBankAccount "Alice" (F64.finite 100))
      [AccountOp.deposit (F64.finite 50),
       AccountOp.withdraw (F64.finite 30)]).balance.isNeg = false := by
  refine ⟨?_, round_100_add_50, ?_⟩
  · exact (C9_bankAccount.1 (NewBankAccount "Alice" (F64.finite 100))
      (F64.finite 50)).1 (by decide)
  · exact C9_bankAccount.2.2 "Alice" (F64.finite 100)
      [AccountOp.deposit (F64.finite 50), AccountOp.withdraw (F64.finite 30)]
      (by decide)

/-! ### `7. custom-types-methods/main.go` : chaining `Calculator` -/

structure Calculator where
  result : ℚ

/-- Division that signals its fault case instead of silently producing a
junk value; `Calculator.divide` must never reach the `none` branch. -/
def qdivChecked (a b : ℚ) : Option ℚ :=
  if b = 0 then none else some (a / b)

/-- Go source:
`func (c *Calculator) divide(value float64) *Calculator { if value != 0 { c.result /= value }; return c }`.
The receiver update is modelled by returning the updated record; the
actual division is routed through `qdivChecked` so that "performs a
division by zero" is an observable outcome (`none`). -/
def Calculator.divide (c : Calculator) (value : ℚ) : Option Calculator :=
  if value ≠ 0 then
    (qdivChecked c.result value).map fun r => { result := r }
  else
    some c

/-- Claim C10: `divide` never performs a division by zero — it always
returns the (possibly updated) calculator: a no-op when `value = 0`, and
the quotient of the running result by `value` otherwise, so chaining
always continues. -/
theorem C10_calculator_divide (c : Calculator) (value : ℚ) :
    ∃ c', c.divide value = some c' ∧
      (value = 0 → c' = c) ∧
      (value ≠ 0 → c'.result = c.result / value) := by
  by_cases h : value = 0
  · refine ⟨c, ?_, fun _ => rfl, fun hc => absurd h hc⟩
    simp [Calculator.divide, h]
  · refine ⟨{ result := c.result / value }, ?_, fun hc => absurd hc h, fun _ => rfl⟩
    simp [Calculator.divide, qdivChecked, h]

/-- Claim C10, witness at `result = 10`, `value = 4` and `value = 0`. -/
theorem C10_calculator_divide_witness :
    (∃ c', Calculator.divide { result := 10 } 4 = some c' ∧
      ((4 : ℚ) = 0 → c' = { result := 10 }) ∧
      ((4 : ℚ) ≠ 0 → c'.result = 10 / 4)) ∧
    (∃ c', Calculator.divide { result := 10 } 0 = some c' ∧
      ((0 : ℚ) = 0 → c' = { result := 10 }) ∧
      ((0 : ℚ) ≠ 0 → c'.result = 10 / 0)) :=
  ⟨C10_calculator_divide { result := 10 } 4,
   C10_calculator_divide { result := 10 } 0⟩

/-! ### `6. maps/main.go` : the REST user API

The handlers are modelled as pure functions from the request data and
the in-memory state (`users` slice and `nextID` counter) to the new
state and the emitted HTTP reply.  Library pieces are modelled as
follows: `strconv.Atoi` as `atoi` below; `json.Unmarshal` of the request
body as an `Option CreateBody` argument (`none` for an unreadable body
or invalid JSON); `time.Now()` as an abstract integer tick passed in. -/

/-- A JSON value, the target of the response encoding. -/
inductive Jval
  | jnull
  | jbool (b : Bool)
  | jnum (n : Int)
  | jstr (s : String)
  | jarr (elems : List Jval)
  | jobj (fields : List (String × Jval))

/-- Go source: the `User` struct; `CreatedAt time.Time` is modelled as an
abstract integer timestamp. -/
structure User where
  id : Int
  name : String
  email : String
  createdAt : Nat

/-- The payload stored in the `Data interface{}` field of a response:
nothing, one user, or the whole user list. -/
inductive RespData
  | empty
  | user (u : User)
  | userList (us : List User)

/-- Go source: the `Response` envelope struct with fields
`Success bool`, `Message string,omitempty`, `Data interface{},omitempty`. -/
structure Response where
  success : Bool
  message : String
  data : RespData

def encodeUser (u : User) : Jval :=
  .jobj [("id", .jnum u.id), ("name", .jstr u.name),
         ("email", .jstr u.email), ("created_at", .jnum u.createdAt)]

def encodeData : RespData → List (String × Jval)
  | .empty => []
  | .user u => [("data", encodeUser u)]
  | .userList us => [("data", .jarr (us.map encodeUser))]

/-- JSON encoding of the envelope, honouring the two `omitempty` tags:
the `message` field is dropped when the string is empty and the `data`
field is dropped when the payload is nil. -/
def encodeResponse (r : Response) : Jval :=
  .jobj ([("success", .jbool r.success)] ++
    (if r.message = "" then [] else [("message", .jstr r.message)]) ++
    encodeData r.data)

/-- What a handler writes to the `http.ResponseWriter`. -/
structure HttpReply where
  status : Nat
  contentType : String
  body : Jval

/-- Go source: `sendJSONResponse` sets `Content-Type: application/json`,
writes the status code and JSON-encodes the envelope. -/
def sendJSONResponse (statusCode : Nat) (response : Response) : HttpReply :=
  { status := statusCode, contentType := "application/json",
    body := encodeResponse response }

def digitsVal (cs : List Char) : Nat :=
  cs.foldl (fun acc c => 10 * acc + (c.toNat - 48)) 0

/-- Model of the standard library `strconv.Atoi`: an optional single
sign followed by at least one decimal digit, with the value required to
fit a 64-bit `int` (out-of-range input makes `Atoi` report an error). -/
def atoi (s : String) : Option Int :=
  match s.toList with
  | [] => none
  | c :: rest =>
    let sign : Int := if c = '-' then -1 else 1
    let digits := if c = '-' ∨ c = '+' then rest else c :: rest
    if digits ≠ [] ∧ digits.all Char.isDigit then
      let v : Int := sign * (digitsVal digits : Int)
      if intMin64 ≤ v ∧ v ≤ intMax64 then some v else none
    else none

/-- The decoded request body of `POST /api/users/create`: the two fields
`json.Unmarshal` can fill that the handler does not overwrite. -/
structure CreateBody where
  name : String
  email : String

/-- The package-level mutable state: the `users` slice and `nextID`. -/
structure ApiState where
  users : List User
  nextID : Int

/-- Go source: the initial `users` slice (timestamps abstract). -/
def initialUsers (t1 t2 t3 : Nat) : List User :=
  [{ id := 1, name := "Alice Johnson", email := "alice@example.com", createdAt := t1 },
   { id := 2, name := "Bob Smith", email := "bob@example.com", createdAt := t2 },
   { id := 3, name := "Charlie Brown", email := "charlie@example.com", createdAt := t3 }]

/-- Go source: initial state, `nextID = 4`. -/
def initialState (t1 t2 t3 : Nat) : ApiState :=
  { users := initialUsers t1 t2 t3, nextID := 4 }

/-- Go source: `getUsersHandler` — method check, then the whole slice. -/
def getUsersHandler (method : String) (users : List User) :
    List User × HttpReply :=
  if method ≠ "GET" then
    (users, sendJSONResponse 405
      { success := false, message := "Method not allowed", data := .empty })
  else
    (users, sendJSONResponse 200
      { success := true, message := "", data := .userList users })

/-- Go source: `getUserByIDHandler` — method check, `strconv.Atoi` on the
path suffix, then a linear scan returning the first user with that id. -/
def getUserByIDHandler (method : String) (idStr : String)
    (users : List User) : List User × HttpReply :=
  if method ≠ "GET" then
    (users, sendJSONResponse 405
      { success := false, message := "Method not allowed", data := .empty })
  else
    match atoi idStr with
    | none =>
        (users, sendJSONResponse 400
          { success := false, message := "Invalid user ID", data := .empty })
    | some id =>
        match users.find? (fun u => u.id == id) with
        | some u =>
            (users, sendJSONResponse 200
              { success := true, message := "", data := .user u })
        | none =>
            (users, sendJSONResponse 404
              { success := false, message := "User not found", data := .empty })

/-- Go source: `createUserHandler` — method check, body decode, empty
name/email validation, then assign `nextID`, increment it, stamp
`CreatedAt` and append. -/
def createUserHandler (method : String) (body : Option CreateBody)
    (now : Nat) (st : ApiState) : ApiState × HttpReply :=
  if method ≠ "POST" then
    (st, sendJSONResponse 405
      { success := false, message := "Method not allowed", data := .empty })
  else
    match body with
    | none =>
        (st, sendJSONResponse 400
          { success := false, message := "Invalid JSON format", data := .empty })
    | some b =>
        if b.name = "" ∨ b.email = "" then
          (st, sendJSONResponse 400
            { success := false, message := "Name and email are required", data := .empty })
        else
          let newUser : User :=
            { id := st.nextID, name := b.name, email := b.email, createdAt := now }
          ({ users := st.users ++ [newUser], nextID := st.nextID + 1 },
           sendJSONResponse 201
             { success := true, message := "User created successfully", data := .user newUser })

/-- The find-and-splice loop of `deleteUserHandler`: at the first `i`
with `users[i].ID == id` the slice becomes
`append(users[:i], users[i+1:]...)`, i.e. the element is cut out; `none`
when no user matches. -/
def deleteFirst (id : Int) : List User → Option (List User)
  | [] => none
  | u :: rest =>
      if u.id == id then some rest
      else (deleteFirst id rest).map (u :: ·)

/-- Go source: `deleteUserHandler` — method check, `strconv.Atoi`, then
the find-and-delete loop. -/
def deleteUserHandler (method : String) (idStr : String) (st : ApiState) :
    ApiState × HttpReply :=
  if method ≠ "DELETE" then
    (st, sendJSONResponse 405
      { success := false, message := "Method not allowed", data := .empty })
  else
    match atoi idStr with
    | none =>
        (st, sendJSONResponse 400
          { success := false, message := "Invalid user ID", data := .empty })
    | some id =>
        match deleteFirst id st.users with
        | some rest =>
            ({ st with users := rest }, sendJSONResponse 200
              { success := true, message := "User deleted successfully", data := .empty })
        | none =>
            (st, sendJSONResponse 404
              { success := false, message := "User not found", data := .empty })

lemma deleteFirst_eq_none {id : Int} {l : List User} :
    deleteFirst id l = none ↔ ∀ u ∈ l, u.id ≠ id := by
  induction l with
  | nil => simp [deleteFirst]
  | cons u rest ih =>
      by_cases h : u.id = id
      · simp [deleteFirst, h]
      · simp [deleteFirst, h, ih]

lemma deleteFirst_some {id : Int} {l : List User}
    (h : ∃ u ∈ l, u.id = id) :
    ∃ pre u post, l = pre ++ u :: post ∧ u.id = id ∧
      (∀ v ∈ pre, v.id ≠ id) ∧ deleteFirst id l = some (pre ++ post) := by
  induction l with
  | nil => simp at h
  | cons w rest ih =>
      by_cases hw : w.id = id
      · exact ⟨[], w, rest, by simp, hw, by simp, by simp [deleteFirst, hw]⟩
      · have hrest : ∃ u ∈ rest, u.id = id := by
          rcases h with ⟨u, hu, hid⟩
          rcases List.mem_cons.mp hu with he | he
          · exact absurd hid (he ▸ hw)
          · exact ⟨u, he, hid⟩
        rcases ih hrest with ⟨pre, u, post, hsplit, hid, hpre, hdel⟩
        refine ⟨w :: pre, u, post, by simp [hsplit], hid, ?_, ?_⟩
        · intro v hv
          rcases List.mem_cons.mp hv with he | he
          · exact he ▸ hw
          · exact hpre v he
        · simp [deleteFirst, hw, hdel]

/-- Claim C3: behaviour of `GET /api/users/{id}` — 400 when the path
suffix does not parse as an integer, 404 with "User not found" when no
stored user has the parsed id, 200 with the user as data when one does;
the stored `users` slice is never changed. -/
theorem C3_getUserByID (idStr : String) (users : List User) :
    ((getUserByIDHandler "GET" idStr users).1 = users) ∧
    (atoi idStr = none →
      (getUserByIDHandler "GET" idStr users).2 = sendJSONResponse 400
        { success := false, message := "Invalid user ID", data := .empty }) ∧
    (∀ id, atoi idStr = some id → (∀ u ∈ users, u.id ≠ id) →
      (getUserByIDHandler "GET" idStr users).2 = sendJSONResponse 404
        { success := false, message := "User not found", data := .empty }) ∧
    (∀ id, atoi idStr = some id → (∃ u ∈ users, u.id = id) →
      ∃ u, u ∈ users ∧ u.id = id ∧
        (getUserByIDHandler "GET" idStr users).2 = sendJSONResponse 200
          { success := true, message := "", data := .user u }) := by
  refine ⟨?_, ?_, ?_, ?_⟩
  · unfold getUserByIDHandler
    simp only [ne_eq, not_true_eq_false, if_false]
    split
    · rfl
    · split <;> rfl
  · intro h
    simp [getUserByIDHandler, h]
  · intro id h hall
    have hnone : users.find? (fun u => u.id == id) = none := by
      rw [List.find?_eq_none]
      intro u hu
      simpa using hall u hu
    simp [getUserByIDHandler, h, hnone]
  · intro id h hex
    cases hf : users.find? (fun u => u.id == id) with
    | none =>
        rw [List.find?_eq_none] at hf
        rcases hex with ⟨u, hu, hid⟩
        exact absurd (by simpa using hid) (hf u hu)
    | some u =>
        refine ⟨u, List.mem_of_find?_eq_some hf, by simpa using List.find?_some hf, ?_⟩
        simp [getUserByIDHandler, h, hf]

/-- Claim C3, witness: bad id string, absent id, and present id, on the
initial user list. -/
theorem C3_getUserByID_witness :
    ((getUserByIDHandler "GET" "abc" (initialUsers 0 0 0)).2 = sendJSONResponse 400
      { success := false, message := "Invalid user ID", data := .empty }) ∧
    ((getUserByIDHandler "GET" "99" (initialUsers 0 0 0)).2 = sendJSONResponse 404
      { success := false, message := "User not found", data := .empty }) ∧
    (∃ u, u ∈ initialUsers 0 0 0 ∧ u.id = 2 ∧
      (getUserByIDHandler "GET" "2" (initialUsers 0 0 0)).2 = sendJSONResponse 200
        { success := true, message := "", data := .user u }) := by
  refine ⟨?_, ?_, ?_⟩
  · exact (C3_getUserByID "abc" (initialUsers 0 0 0)).2.1 (by decide)
  · exact (C3_getUserByID "99" (initialUsers 0 0 0)).2.2.1 99 (by decide) (by decide)
  · exact (C3_getUserByID "2" (initialUsers 0 0 0)).2.2.2 2 (by decide) (by decide)

/-- Claim C6: behaviour of `DELETE /api/users/{id}` — 400 when the path
suffix does not parse; when a stored user has the id, the first such
user is cut out with the rest kept in order and the reply is 200 with
"User deleted successfully"; otherwise 404 with the slice unchanged. -/
theorem C6_deleteUser (idStr : String) (st : ApiState) :
    (atoi idStr = none →
      (deleteUserHandler "DELETE" idStr st).1 = st ∧
      (deleteUserHandler "DELETE" idStr st).2 = sendJSONResponse 400
        { success := false, message := "Invalid user ID", data := .empty }) ∧
    (∀ id, atoi idStr = some id → (∀ u ∈ st.users, u.id ≠ id) →
      (deleteUserHandler "DELETE" idStr st).1 = st ∧
      (deleteUserHandler "DELETE" idStr st).2 = sendJSONResponse 404
        { success := false, message := "User not found", data := .empty }) ∧
    (∀ id, atoi idStr = some id → (∃ u ∈ st.users, u.id = id) →
      ∃ pre u post, st.users = pre ++ u :: post ∧ u.id = id ∧
        (∀ v ∈ pre, v.id ≠ id) ∧
        (deleteUserHandler "DELETE" idStr st).1 = { st with users := pre ++ post } ∧
        (deleteUserHandler "DELETE" idStr st).2 = sendJSONResponse 200
          { success := true, message := "User deleted successfully", data := .empty }) := by
  refine ⟨?_, ?_, ?_⟩
  · intro h
    constructor <;> simp [deleteUserHandler, h]
  · intro id h hall
    have hnone : deleteFirst id st.users = none := deleteFirst_eq_none.mpr hall
    constructor <;> simp [deleteUserHandler, h, hnone]
  · intro id h hex
    rcases deleteFirst_some hex with ⟨pre, u, post, hsplit, hid, hpre, hdel⟩
    refine ⟨pre, u, post, hsplit, hid, hpre, ?_, ?_⟩ <;>
      simp [deleteUserHandler, h, hdel]

/-- Claim C6, witness: bad id string, absent id, and deletion of user 2
from the initial state. -/
theorem C6_deleteUser_witness :
    ((deleteUserHandler "DELETE" "abc" (initialState 0 0 0)).1 = initialState 0 0 0) ∧
    ((deleteUserHandler "DELETE" "99" (initialState 0 0 0)).2 = sendJSONResponse 404
      { success := false, message := "User not found", data := .empty }) ∧
    (∃ pre u post, (initialState 0 0 0).users = pre ++ u :: post ∧ u.id = 2 ∧
      (∀ v ∈ pre, v.id ≠ 2) ∧
      (deleteUserHandler "DELETE" "2" (initialState 0 0 0)).1 =
        { initialState 0 0 0 with users := pre ++ post } ∧
      (deleteUserHandler "DELETE" "2" (initialState 0 0 0)).2 = sendJSONResponse 200
        { success := true, message := "User deleted successfully", data := .empty }) := by
  refine ⟨?_, ?_, ?_⟩
  · exact ((C6_deleteUser "abc" (initialState 0 0 0)).1 (by decide)).1
  · exact ((C6_deleteUser "99" (initialState 0 0 0)).2.1 99 (by decide) (by decide)).2
  · exact (C6_deleteUser "2" (initialState 0 0 0)).2.2 2 (by decide) (by decide)

/-- Claim C5: every reply of the four REST handlers, on every path, is
produced by `sendJSONResponse`, i.e. a JSON encoding of the `Response`
envelope sent with `Content-Type: application/json` and the
handler-chosen status code. -/
theorem C5_json_envelope (method idStr : String) (body : Option CreateBody)
    (now : Nat) (st : ApiState) (users : List User) :
    (∀ (statusCode : Nat) (r : Response),
      (sendJSONResponse statusCode r).contentType = "application/json" ∧
      (sendJSONResponse statusCode r).status = statusCode ∧
      (sendJSONResponse statusCode r).body = encodeResponse r) ∧
    (∃ c r, (getUsersHandler method users).2 = sendJSONResponse c r) ∧
    (∃ c r, (getUserByIDHandler method idStr users).2 = sendJSONResponse c r) ∧
    (∃ c r, (createUserHandler method body now st).2 = sendJSONResponse c r) ∧
    (∃ c r, (deleteUserHandler method idStr st).2 = sendJSONResponse c r) := by
  refine ⟨fun c r => ⟨rfl, rfl, rfl⟩, ?_, ?_, ?_, ?_⟩
  · unfold getUsersHandler
    split_ifs <;> exact ⟨_, _, rfl⟩
  · unfold getUserByIDHandler
    split_ifs
    · exact ⟨_, _, rfl⟩
    · split
      · exact ⟨_, _, rfl⟩
      · split <;> exact ⟨_, _, rfl⟩
  · unfold createUserHandler
    split_ifs
    · exact ⟨_, _, rfl⟩
    · split
      · exact ⟨_, _, rfl⟩
      · split_ifs <;> exact ⟨_, _, rfl⟩
  · unfold deleteUserHandler
    split_ifs
    · exact ⟨_, _, rfl⟩
    · split
      · exact ⟨_, _, rfl⟩
      · split <;> exact ⟨_, _, rfl⟩

/-- A worker is waiting on the jobs channel, processing a job, or has
left its `range` loop because the channel is closed and drained. -/
inductive WStatus
  | idle
  | busy (job : Nat)
  | done
deriving DecidableEq

structure PoolCfg where
  toSend : List Nat
  closed : Bool
  jobsBuf : List Nat
  workers : List WStatus
  resBuf : List Nat
  collected : List Nat
deriving DecidableEq

/-- The configuration at the start of `workerPoolExample`. -/
def initPool : PoolCfg :=
  { toSend := [1, 2, 3, 4, 5], closed := false, jobsBuf := [],
    workers := [.idle, .idle, .idle], resBuf := [], collected := [] }

/-- One interleaving step: main sends a job into the buffered channel
(capacity 5), main closes the channel after the last send, an idle
worker receives a job, an idle worker leaves its `range` loop when the
channel is closed and empty, a busy worker sends `job * 2` into the
results channel (capacity 5), or main receives one of its 5 results
(main only receives after the close, by program order). -/
inductive PoolStep : PoolCfg → PoolCfg → Prop
  | send (c : PoolCfg) (j : Nat) (rest : List Nat)
      (hts : c.toSend = j :: rest) (hcap : c.jobsBuf.length < 5) :
      PoolStep c { c with toSend := rest, jobsBuf := c.jobsBuf ++ [j] }
  | close (c : PoolCfg) (h1 : c.toSend = []) (h2 : c.closed = false) :
      PoolStep c { c with closed := true }
  | take (c : PoolCfg) (i : Nat) (j : Nat) (rest : List Nat)
      (hw : c.workers[i]? = some .idle) (hjb : c.jobsBuf = j :: rest) :
      PoolStep c { c with jobsBuf := rest, workers := c.workers.set i (.busy j) }
  | finish (c : PoolCfg) (i : Nat)
      (hw : c.workers[i]? = some .idle) (hjb : c.jobsBuf = [])
      (hc : c.closed = true) :
      PoolStep c { c with workers := c.workers.set i .done }
  | push (c : PoolCfg) (i : Nat) (j : Nat)
      (hw : c.workers[i]? = some (.busy j)) (hcap : c.resBuf.length < 5) :
      PoolStep c { c with workers := c.workers.set i .idle,
                          resBuf := c.resBuf ++ [j * 2] }
  | collect (c : PoolCfg) (r : Nat) (rest : List Nat)
      (h1 : c.closed = true) (hrb : c.resBuf = r :: rest)
      (hn : c.collected.length < 5) :
      PoolStep c { c with resBuf := rest, collected := c.collected ++ [r] }

/-- Configurations reachable from the start under some interleaving. -/
def PoolReach (c : PoolCfg) : Prop := Relation.ReflTransGen PoolStep initPool c

/-- The job a worker currently holds, as a multiset. -/
def wjobs : WStatus → Multiset Nat
  | .busy j => {j}
  | _ => 0

def busyMS (ws : List WStatus) : Multiset Nat := (ws.map wjobs).sum

/-- Scheduling weight of a worker state, for the termination measure. -/
def wweight : WStatus → Nat
  | .idle => 1
  | .busy _ => 3
  | .done => 0

/-- Strictly decreasing measure: every step retires one of the finitely
many channel operations left. -/
def poolMeasure (c : PoolCfg) : Nat :=
  4 * c.toSend.length + 3 * c.jobsBuf.length + c.resBuf.length +
    (if c.closed then 0 else 1) + (c.workers.map wweight).sum

/-- Conservation: every job is pending, buffered, held by a worker, or
already doubled into the results channel / main's hands; the grand total
is always `{1, ..., 5}` doubled. -/
def poolMS (c : PoolCfg) : Multiset Nat :=
  (((c.toSend : Multiset Nat) + (c.jobsBuf : Multiset Nat) +
      busyMS c.workers).map (· * 2)) +
    (c.resBuf : Multiset Nat) + (c.collected : Multiset Nat)

/-- The inductive invariant of the pool. -/
def PoolInv (c : PoolCfg) : Prop :=
  c.workers.length = 3 ∧
  (c.closed = true → c.toSend = []) ∧
  (WStatus.done ∈ c.workers → c.closed = true ∧ c.jobsBuf = []) ∧
  poolMS c = {2, 4, 6, 8, 10}

lemma coe_append_singleton {α : Type} (l : List α) (a : α) :
    (↑(l ++ [a]) : Multiset α) = ↑l + {a} := by
  rw [← Multiset.coe_add, Multiset.coe_singleton]

lemma coe_cons_eq {α : Type} (a : α) (l : List α) :
    (↑(a :: l) : Multiset α) = {a} + ↑l := by
  rw [← Multiset.cons_coe, Multiset.singleton_add]

lemma busyMS_cons (w : WStatus) (ws : List WStatus) :
    busyMS (w :: ws) = wjobs w + busyMS ws := by
  simp [busyMS]

lemma busyMS_set (ws : List WStatus) (i : Nat) (a b : WStatus)
    (h : ws[i]? = some a) :
    busyMS (ws.set i b) + wjobs a = busyMS ws + wjobs b := by
  induction ws generalizing i with
  | nil => simp at h
  | cons w t ih =>
      cases i with
      | zero =>
          simp only [List.getElem?_cons_zero, Option.some.injEq] at h
          subst h
          simp only [List.set_cons_zero, busyMS_cons]
          abel
      | succ n =>
          simp only [List.getElem?_cons_succ] at h
          have := ih n h
          simp only [List.set_cons_succ, busyMS_cons]
          calc wjobs w + busyMS (t.set n b) + wjobs a
              = wjobs w + (busyMS (t.set n b) + wjobs a) := by abel
            _ = wjobs w + (busyMS t + wjobs b) := by rw [this]
            _ = wjobs w + busyMS t + wjobs b := by abel

lemma weight_set (ws : List WStatus) (i : Nat) (a b : WStatus)
    (h : ws[i]? = some a) :
    ((ws.set i b).map wweight).sum + wweight a
      = (ws.map wweight).sum + wweight b := by
  induction ws generalizing i with
  | nil => simp at h
  | cons w t ih =>
      cases i with
      | zero =>
          simp only [List.getElem?_cons_zero, Option.some.injEq] at h
          subst h
          simp only [List.set_cons_zero, List.map_cons, List.sum_cons]
          omega
      | succ n =>
          simp only [List.getElem?_cons_succ] at h
          have := ih n h
          simp only [List.set_cons_succ, List.map_cons, List.sum_cons]
          omega

lemma poolInv_step {c c' : PoolCfg} (h : PoolStep c c') (hI : PoolInv c) :
    PoolInv c' := by
  obtain ⟨len3, hct, hdone, hms⟩ := hI
  cases h with
  | send j rest hts hcap =>
      refine ⟨len3, ?_, ?_, ?_⟩
      · intro hcl
        dsimp only at hcl
        rw [hct hcl] at hts
        exact absurd hts (by simp)
      · intro hd
        dsimp only at hd
        rw [hct (hdone hd).1] at hts
        exact absurd hts (by simp)
      · simp only [poolMS] at hms
        rw [hts] at hms
        calc poolMS { c with toSend := rest, jobsBuf := c.jobsBuf ++ [j] }
            = ((↑rest + (↑c.jobsBuf + {j}) + busyMS c.workers).map (· * 2))
                + ↑c.resBuf + ↑c.collected := by
              simp only [poolMS, coe_append_singleton]
          _ = ((↑(j :: rest) + ↑c.jobsBuf + busyMS c.workers).map (· * 2))
                + ↑c.resBuf + ↑c.collected := by
              rw [coe_cons_eq]
              congr 1
              congr 1
              abel
          _ = {2, 4, 6, 8, 10} := hms
  | close h1 h2 =>
      exact ⟨len3, fun _ => h1, fun hd => ⟨rfl, (hdone hd).2⟩, hms⟩
  | take i j rest hw hjb =>
      have hb := busyMS_set c.workers i .idle (.busy j) hw
      simp only [wjobs, add_zero] at hb
      refine ⟨by simp [len3], fun hcl => hct hcl, ?_, ?_⟩
      · intro hd
        dsimp only at hd
        rcases List.mem_or_eq_of_mem_set hd with hd | hd
        · rw [(hdone hd).2] at hjb
          exact absurd hjb (by simp)
        · exact absurd hd (by simp)
      · simp only [poolMS] at hms
        rw [hjb] at hms
        calc poolMS { c with jobsBuf := rest, workers := c.workers.set i (.busy j) }
            = ((↑c.toSend + ↑rest + (busyMS c.workers + {j})).map (· * 2))
                + ↑c.resBuf + ↑c.collected := by
              simp only [poolMS, hb]
          _ = ((↑c.toSend + ↑(j :: rest) + busyMS c.workers).map (· * 2))
                + ↑c.resBuf + ↑c.collected := by
              rw [coe_cons_eq]
              congr 1
              congr 1
              abel
          _ = {2, 4, 6, 8, 10} := hms
  | finish i hw hjb hc =>
      have hb := busyMS_set c.workers i .idle .done hw
      simp only [wjobs, add_zero] at hb
      refine ⟨by simp [len3], fun hcl => hct hcl, fun _ => ⟨hc, hjb⟩, ?_⟩
      calc poolMS { c with workers := c.workers.set i .done }
          = poolMS c := by simp only [poolMS, hb]
        _ = {2, 4, 6, 8, 10} := hms
  | push i j hw hcap =>
      have hb := busyMS_set c.workers i (.busy j) .idle hw
      simp only [wjobs, add_zero] at hb
      refine ⟨by simp [len3], fun hcl => hct hcl, ?_, ?_⟩
      · intro hd
        dsimp only at hd
        rcases List.mem_or_eq_of_mem_set hd with hd | hd
        · exact hdone hd
        · exact absurd hd (by simp)
      · calc poolMS { c with workers := c.workers.set i .idle,
                             resBuf := c.resBuf ++ [j * 2] }
            = ((↑c.toSend + ↑c.jobsBuf + busyMS (c.workers.set i .idle)).map (· * 2))
                + (↑c.resBuf + {j * 2}) + ↑c.collected := by
              simp only [poolMS, coe_append_singleton]
          _ = ((↑c.toSend + ↑c.jobsBuf + (busyMS (c.workers.set i .idle) + {j})).map (· * 2))
                + ↑c.resBuf + ↑c.collected := by
              simp only [Multiset.map_add, Multiset.map_singleton]
              abel
          _ = ((↑c.toSend + ↑c.jobsBuf + busyMS c.workers).map (· * 2))
                + ↑c.resBuf + ↑c.collected := by
              rw [hb]
          _ = {2, 4, 6, 8, 10} := hms
  | collect r rest h1 hrb hn =>
      refine ⟨len3, fun _ => hct h1, fun hd => ⟨h1, (hdone hd).2⟩, ?_⟩
      simp only [poolMS] at hms
      rw [hrb] at hms
      calc poolMS { c with resBuf := rest, collected := c.collected ++ [r] }
          = ((↑c.toSend + ↑c.jobsBuf + busyMS c.workers).map (· * 2))
              + ↑rest + (↑c.collected + {r}) := by
            simp only [poolMS, coe_append_singleton]
        _ = ((↑c.toSend + ↑c.jobsBuf + busyMS c.workers).map (· * 2))
              + ↑(r :: rest) + ↑c.collected := by
            rw [coe_cons_eq]
            abel
        _ = {2, 4, 6, 8, 10} := hms

lemma poolInv_init : PoolInv initPool := by
  refine ⟨rfl, ?_, ?_, ?_⟩
  · intro h
    simp [initPool] at h
  · intro h
    simp [initPool] at h
  · decide

lemma poolInv_reach {c : PoolCfg} (h : PoolReach c) : PoolInv c := by
  induction h with
  | refl => exact poolInv_init
  | tail hab hbc ih => exact poolInv_step hbc ih

lemma poolInv_count {c : PoolCfg} (hms : poolMS c = {2, 4, 6, 8, 10}) :
    c.toSend.length + c.jobsBuf.length + Multiset.card (busyMS c.workers) +
      c.resBuf.length + c.collected.length = 5 := by
  have hc := congrArg Multiset.card hms
  simp only [poolMS, Multiset.card_add, Multiset.card_map, Multiset.coe_card] at hc
  rw [show Multiset.card ({2, 4, 6, 8, 10} : Multiset Nat) = 5 from rfl] at hc
  omega

lemma busyMS_pos {ws : List WStatus} (h : busyMS ws ≠ 0) :
    ∃ (i : Nat) (j : Nat), ws[i]? = some (WStatus.busy j) := by
  induction ws with
  | nil => simp [busyMS] at h
  | cons w t ih =>
      cases w with
      | busy j => exact ⟨0, j, by simp⟩
      | idle =>
          rw [busyMS_cons] at h
          simp only [wjobs, zero_add] at h
          rcases ih h with ⟨i, j, hi⟩
          exact ⟨i + 1, j, by simpa using hi⟩
      | done =>
          rw [busyMS_cons] at h
          simp only [wjobs, zero_add] at h
          rcases ih h with ⟨i, j, hi⟩
          exact ⟨i + 1, j, by simpa using hi⟩

lemma head_idle {ws : List WStatus} (hne : ws ≠ [])
    (hb : busyMS ws = 0) (hd : WStatus.done ∉ ws) : ws[0]? = some .idle := by
  cases ws with
  | nil => exact absurd rfl hne
  | cons w t =>
      cases w with
      | idle => simp
      | busy j =>
          rw [busyMS_cons] at hb
          have := congrArg Multiset.card hb
          simp [wjobs] at this
      | done => exact absurd (List.mem_cons_self _ _) hd

/-- No premature deadlock: as long as main has not received its 5
results, some goroutine can move. -/
lemma pool_progress (c : PoolCfg) (hI : PoolInv c)
    (hlt : c.collected.length < 5) : ∃ c', PoolStep c c' := by
  obtain ⟨len3, hct, hdone, hms⟩ := hI
  have hcard := poolInv_count hms
  cases hts : c.toSend with
  | cons j rest =>
      have hlen : 1 ≤ c.toSend.length := by
        rw [hts]
        simp
      exact ⟨_, .send c j rest hts (by omega)⟩
  | nil =>
    cases hcl : c.closed with
    | false => exact ⟨_, .close c hts hcl⟩
    | true =>
      cases hrb : c.resBuf with
      | cons r rrest => exact ⟨_, .collect c r rrest hcl hrb hlt⟩
      | nil =>
        by_cases hbz : busyMS c.workers = 0
        · simp only [hts, hrb, hbz, List.length_nil, Multiset.card_zero] at hcard
          cases hjb : c.jobsBuf with
          | nil =>
              rw [hjb] at hcard
              simp at hcard
              omega
          | cons j jrest =>
              have hnd : WStatus.done ∉ c.workers := by
                intro hd
                have h0 := (hdone hd).2
                rw [h0] at hjb
                exact absurd hjb (by simp)
              have hne : c.workers ≠ [] := by
                intro h0
                rw [h0] at len3
                simp at len3
              exact ⟨_, .take c 0 j jrest (head_idle hne hbz hnd) hjb⟩
        · obtain ⟨i, j, hw⟩ := busyMS_pos hbz
          exact ⟨_, .push c i j hw (by simp [hrb])⟩

/-- Every step strictly decreases the measure, so every interleaving
terminates. -/
lemma poolStep_measure {c c' : PoolCfg} (h : PoolStep c c') :
    poolMeasure c' < poolMeasure c := by
  cases h with
  | send j rest hts hcap =>
      cases hclo : c.closed <;>
        simp [poolMeasure, hts, hclo] <;> omega
  | close h1 h2 =>
      simp [poolMeasure, h2]
  | take i j rest hw hjb =>
      have hwt := weight_set c.workers i .idle (.busy j) hw
      simp only [List.map_set, wweight] at hwt
      cases hclo : c.closed <;>
        simp [poolMeasure, hjb, hclo, List.map_set, wweight] <;> omega
  | finish i hw hjb hc =>
      have hwt := weight_set c.workers i .idle .done hw
      simp only [List.map_set, wweight] at hwt
      cases hclo : c.closed <;>
        simp [poolMeasure, hjb, hclo, List.map_set, wweight] <;> omega
  | push i j hw hcap =>
      have hwt := weight_set c.workers i (.busy j) .idle hw
      simp only [List.map_set, wweight] at hwt
      cases hclo : c.closed <;>
        simp [poolMeasure, hclo, List.map_set, wweight] <;> omega
  | collect r rest h1 hrb hn =>
      cases hclo : c.closed <;>
        simp [poolMeasure, hrb, hclo]

/-- Claim C1: under every interleaving of the 3 workers and the main
routine, (i) whenever main has received its 5 results, their multiset is
exactly `{2, 4, 6, 8, 10}`; (ii) until then some goroutine can always
move (no premature deadlock), and (iii) every step decreases a
finite measure, so every interleaving does reach the 5 received
results. -/
theorem C1_workerPool :
    (∀ c, PoolReach c → c.collected.length = 5 →
      (c.collected : Multiset Nat) = {2, 4, 6, 8, 10}) ∧
    (∀ c, PoolReach c → c.collected.length < 5 → ∃ c', PoolStep c c') ∧
    (∀ c c', PoolStep c c' → poolMeasure c' < poolMeasure c) := by
  refine ⟨?_, ?_, ?_⟩
  · intro c hr h5
    obtain ⟨len3, hct, hdone, hms⟩ := poolInv_reach hr
    have hcard := poolInv_count hms
    have hts : c.toSend = [] := List.length_eq_zero.mp (by omega)
    have hjb : c.jobsBuf = [] := List.length_eq_zero.mp (by omega)
    have hrb : c.resBuf = [] := List.length_eq_zero.mp (by omega)
    have hbz : busyMS c.workers = 0 := Multiset.card_eq_zero.mp (by omega)
    rw [← hms]
    simp [poolMS, hts, hjb, hrb, hbz]
  · intro c hr hlt
    exact pool_progress c (poolInv_reach hr) hlt
  · intro c c' h
    exact poolStep_measure h

/-- The configuration after main has received all 5 results. -/
def poolFinal : PoolCfg :=
  { toSend := [], closed := true, jobsBuf := [],
    workers := [.idle, .idle, .idle], resBuf := [],
    collected := [2, 4, 6, 8, 10] }

/-- The configuration right after main's first send. -/
def poolAfterSend1 : PoolCfg :=
  { toSend := [2, 3, 4, 5], closed := false, jobsBuf := [1],
    workers := [.idle, .idle, .idle], resBuf := [], collected := [] }

/-- A concrete interleaving (worker 0 does all the jobs) reaching the
fully-collected configuration. -/
lemma pool_reach_final : PoolReach poolFinal := by
  refine Relation.ReflTransGen.head (PoolStep.send _ 1 [2, 3, 4, 5] rfl (by decide)) ?_
  refine Relation.ReflTransGen.head (PoolStep.send _ 2 [3, 4, 5] rfl (by decide)) ?_
  refine Relation.ReflTransGen.head (PoolStep.send _ 3 [4, 5] rfl (by decide)) ?_
  refine Relation.ReflTransGen.head (PoolStep.send _ 4 [5] rfl (by decide)) ?_
  refine Relation.ReflTransGen.head (PoolStep.send _ 5 [] rfl (by decide)) ?_
  refine Relation.ReflTransGen.head (PoolStep.close _ rfl rfl) ?_
  refine Relation.ReflTransGen.head (PoolStep.take _ 0 1 [2, 3, 4, 5] rfl rfl) ?_
  refine Relation.ReflTransGen.head (PoolStep.push _ 0 1 rfl (by decide)) ?_
  refine Relation.ReflTransGen.head (PoolStep.take _ 0 2 [3, 4, 5] rfl rfl) ?_
  refine Relation.ReflTransGen.head (PoolStep.push _ 0 2 rfl (by decide)) ?_
  refine Relation.ReflTransGen.head (PoolStep.take _ 0 3 [4, 5] rfl rfl) ?_
  refine Relation.ReflTransGen.head (PoolStep.push _ 0 3 rfl (by decide)) ?_
  refine Relation.ReflTransGen.head (PoolStep.take _ 0 4 [5] rfl rfl) ?_
  refine Relation.ReflTransGen.head (PoolStep.push _ 0 4 rfl (by decide)) ?_
  refine Relation.ReflTransGen.head (PoolStep.take _ 0 5 [] rfl rfl) ?_
  refine Relation.ReflTransGen.head (PoolStep.push _ 0 5 rfl (by decide)) ?_
  refine Relation.ReflTransGen.head (PoolStep.collect _ 2 [4, 6, 8, 10] rfl rfl (by decide)) ?_
  refine Relation.ReflTransGen.head (PoolStep.collect _ 4 [6, 8, 10] rfl rfl (by decide)) ?_
  refine Relation.ReflTransGen.head (PoolStep.collect _ 6 [8, 10] rfl rfl (by decide)) ?_
  refine Relation.ReflTransGen.head (PoolStep.collect _ 8 [10] rfl rfl (by decide)) ?_
  refine Relation.ReflTransGen.head (PoolStep.collect _ 10 [] rfl rfl (by decide)) ?_
  exact Relation.ReflTransGen.refl

/-- Claim C1, witness: the theorem applied to a concretely reached final
configuration, to the initial configuration, and to a first step. -/
theorem C1_workerPool_witness :
    ((poolFinal.collected : Multiset Nat) = {2, 4, 6, 8, 10}) ∧
    (∃ c', PoolStep initPool c') ∧
    poolMeasure poolAfterSend1 < poolMeasure initPool := by
  refine ⟨?_, ?_, ?_⟩
  · exact C1_workerPool.1 poolFinal pool_reach_final rfl
  · exact C1_workerPool.2.1 initPool Relation.ReflTransGen.refl (by decide)
  · exact C1_workerPool.2.2 initPool _
      (PoolStep.send initPool 1 [2, 3, 4, 5] rfl (by decide))

end LearningGo
